import Mathlib

/-!
Verification of the incremental JSON-array serialization core of
`ctrlz` (`src/ctrlz/large_json.py`).

The embedding is shallow: each Python function is translated into a Lean
function over explicit state.  The output sink (`fp`) is modelled as the
string of characters written so far; the single-element JSON encoder
(`json.dumps` with a fixed keyword configuration) is an external
collaborator and is modelled as an abstract function `enc : α → String`
wherever the claims quantify over "every encoder configuration".

Definitions come first, then the theorems about them.
-/

namespace CtrlZ

/-- The elements of a list joined by a separator, with nothing before the
first element and nothing after the last (the "joined by `,`" shape the
spec describes). -/
def sepJoin (sep : String) : List String → String
  | [] => ""
  | [x] => x
  | x :: y :: xs => x ++ sep ++ sepJoin sep (y :: xs)

/-- One loop iteration of `dump_it` (lines 37-42 of `large_json.py`): the
state is (characters written so far, `prev_is_obj`).  If `prev_is_obj` a
comma is written, otherwise the flag is set; then the element's encoded
text is written. -/
def dumpStep (enc : α → String) (st : String × Bool) (obj : α) : String × Bool :=
  let st1 := if st.2 then (st.1 ++ ",", st.2) else (st.1, true)
  (st1.1 ++ enc obj, st1.2)

/-- Model of `dump_it` (`large_json.py` lines 33-43): write `[`, loop over
the source writing a `,` before every element except the first, then write
`]`.  The returned string is the sink's contents after the run. -/
def dump_it (enc : α → String) (it : List α) : String :=
  (it.foldl (dumpStep enc) ("[", false)).1 ++ "]"

/-- The separator-prefixing accumulation step that the writers' loops
perform once the first element has been written: append the separator,
then the next element's encoded text. -/
def sepStep (sep : String) (enc : α → String) (r : String) (x : α) : String :=
  r ++ sep ++ enc x

/-- The `for` loop of `dump_it` over a fallible source (a lazy generator
that may raise while producing a value; each step is either a produced
value or the exception raised at that point).  Returns the final
(sink contents, `prev_is_obj`) state together with the source's exception
when iteration raised.  Iteration stops at the first failure. -/
def dumpLoopSrc (enc : α → String) :
    String × Bool → List (Except ε α) → (String × Bool) × Option ε
  | st, [] => (st, none)
  | st, Except.error e :: _ => (st, some e)
  | st, Except.ok obj :: rest => dumpLoopSrc enc (dumpStep enc st obj) rest

/-- Model of `dump_it` run against a fallible source: the closing bracket
is written only when the loop finishes normally; a source failure
propagates out of `dump_it` unchanged (the spec's taxonomy names an error
raised by the source while being iterated a SourceError) and the sink
keeps what was already written. -/
def dump_itSrc (enc : α → String) (it : List (Except ε α)) : String × Option ε :=
  match dumpLoopSrc enc ("[", false) it with
  | (st, none) => (st.1 ++ "]", none)
  | (st, some e) => (st.1, some e)

/-- Model of `StreamArray` (`large_json.py` lines 6-30): a `list` subclass
wrapping a single-pass generator.  `generator` is the sequence of values
the wrapped generator has yet to produce; `curLen` is the `_len` attribute
that `__len__` reports. -/
structure StreamArray (α : Type u) where
  generator : List α
  curLen : Nat

/-- Model of `StreamArray.__init__`: stores the generator and sets
`_len = 1` (the sentinel that makes the object look non-empty before
iteration begins). -/
def StreamArray.init (generator : List α) : StreamArray α :=
  ⟨generator, 1⟩

/-- The body of `StreamArray.__iter__` after `_len` has been reset to 0:
given the values the generator has yet to produce and the current `_len`,
return the yield trace — each produced item paired with the value
`__len__` reports at the moment that item has just been yielded — and the
final `_len`.  In the source, `self._len += 1` runs only when the consumer
resumes the generator, i.e. after the yield. -/
def iterAux : List α → Nat → List (α × Nat) × Nat
  | [], n => ([], n)
  | x :: xs, n =>
    let r := iterAux xs (n + 1)
    ((x, n) :: r.1, r.2)

/-- Model of one full run of `StreamArray.__iter__`: `_len` is reset to 0,
then the generator is drained, the counter incremented after each yield.
Returns the yield trace and the final `StreamArray` state (the single-pass
generator is consumed). -/
def StreamArray.iterRun (sa : StreamArray α) : List (α × Nat) × StreamArray α :=
  let r := iterAux sa.generator 0
  (r.1, ⟨[], r.2⟩)

/-- Model of the list branch of CPython's pure-Python json encoder
(`json.encoder._make_iterencode._iterencode_list`, the path
`JSONEncoder(**json_kwargs).iterencode` takes since `_one_shot` is false),
specialised to `indent=None`, as invoked on a `StreamArray`.  The
emptiness check `if not lst` consults `__len__`; if it reports 0 the
encoder yields `[]` and returns.  Otherwise `buf = '['` is emitted only
merged into the first chunk yielded *inside* the loop, each later element
is preceded by the configured item separator (CPython's default when
`separators`/`indent` are not given is `", "`), and finally `']'` is
yielded — so if the loop body never runs, the `'['` buffer is never
emitted. -/
def iterencode_list (item_sep : String) (enc : α → String) (sa : StreamArray α) : String :=
  if sa.curLen = 0 then "[]"
  else
    match sa.generator with
    | [] => "]"
    | x :: xs => (xs.foldl (sepStep item_sep enc) ("[" ++ enc x)) ++ "]"

/-- Model of `dump_it_by_hack` (`large_json.py` lines 46-54): wrap the
source in a fresh `StreamArray` (so `__len__` reports the sentinel 1 when
the encoder performs its emptiness check) and write every chunk the
encoder yields to the sink.  `item_sep` is the top-level item separator of
the `JSONEncoder` built from `json_kwargs`. -/
def dump_it_by_hack (item_sep : String) (enc : α → String) (it : List α) : String :=
  iterencode_list item_sep enc (StreamArray.init it)

/-! ### The default element encoding of natural numbers

For the round-trip claim the element domain is specialised to natural
numbers; `json.dumps` with the default configuration renders a Python
non-negative `int` as its decimal numeral. -/

/-- The character of one decimal digit. -/
def digitChar : Nat → Char
  | 0 => '0'
  | 1 => '1'
  | 2 => '2'
  | 3 => '3'
  | 4 => '4'
  | 5 => '5'
  | 6 => '6'
  | 7 => '7'
  | 8 => '8'
  | _ => '9'

/-- Fuel-driven construction of the decimal numeral of `n`, most
significant digit first. -/
def natDigitsCore : Nat → Nat → List Char → List Char
  | 0, _, acc => acc
  | fuel + 1, n, acc =>
    if n < 10 then digitChar n :: acc
    else natDigitsCore fuel (n / 10) (digitChar (n % 10) :: acc)

/-- The decimal numeral of `n`. -/
def natToDigits (n : Nat) : List Char :=
  natDigitsCore (n + 1) n []

/-- The default element encoder at natural-number elements: `json.dumps`
renders a non-negative `int` as its decimal numeral. -/
def encNat (n : Nat) : String :=
  String.mk (natToDigits n)

/-- The numeric value of one decimal digit character. -/
def digitVal (c : Char) : Nat := c.toNat - 48

/-- The number denoted by a decimal numeral. -/
def digitsVal (cs : List Char) : Nat :=
  cs.foldl (fun a c => 10 * a + digitVal c) 0

/-- Parse a (non-empty, all-digit) decimal numeral; the number grammar of
a JSON natural number with no sign, fraction or exponent. -/
def digitsToNat (cs : List Char) : Option Nat :=
  if cs ≠ [] ∧ cs.all Char.isDigit then some (digitsVal cs) else none

/-- Split a character list at every `,`. -/
def splitOnComma : List Char → List (List Char)
  | [] => [[]]
  | c :: cs =>
    if c = ',' then [] :: splitOnComma cs
    else
      match splitOnComma cs with
      | [] => [[c]]
      | g :: gs => (c :: g) :: gs

/-- Join chunks with a `,` between consecutive chunks (the character-level
image of `sepJoin ","`). -/
def joinComma : List (List Char) → List Char
  | [] => []
  | [g] => g
  | g :: g' :: gs => g ++ ',' :: joinComma (g' :: gs)

/-- A JSON parser for the fragment the writers emit at natural-number
elements: a whitespace-free array of decimal numerals.  Models what
`json.loads` accepts on exactly such documents: the text must start with
`[`, end with `]`, and between them hold either nothing or comma-separated
numerals. -/
def parseJsonNatArray (cs : List Char) : Option (List Nat) :=
  match cs with
  | '[' :: rest =>
    match rest.getLast? with
    | some ']' =>
      let mid := rest.dropLast
      if mid = [] then some []
      else (splitOnComma mid).mapM digitsToNat
    | _ => none
  | _ => none

/-! ### The Managed Push Writer -/

/-- The errors observable in the push-writer model.
`valueErrorClosedFile` is the `ValueError: I/O operation on closed file`
that a Python text file object raises when written after being closed.
`lifecycleError` is a dedicated writer-raised invalid-state error of the
spec's taxonomy; it exists so claims about the error's kind can be
stated — the modelled code never raises it. -/
inductive PyError where
  | valueErrorClosedFile : PyError
  | lifecycleError : PyError
  deriving DecidableEq

/-- A Python text file handle opened for writing: the characters written
so far and whether the handle is still open. -/
structure FileHandle where
  contents : String
  isOpen : Bool
  deriving DecidableEq

/-- `fp.write(s)`: appends on an open handle; on a closed handle raises
`ValueError` and writes nothing. -/
def fpWrite (fp : FileHandle) (s : String) : FileHandle × Option PyError :=
  if fp.isOpen then ({ fp with contents := fp.contents ++ s }, none)
  else (fp, some PyError.valueErrorClosedFile)

/-- `fp.close()`: releases the handle (a no-op on an already-closed
handle, as in Python); the characters already written remain. -/
def fpClose (fp : FileHandle) : FileHandle :=
  { fp with isOpen := false }

/-- Model of `JsonSequenceWriter` (`large_json.py` lines 57-85): the
element encoder built from `json_kwargs`, the owned file handle, and the
`_count` of elements written. -/
structure JsonSequenceWriter (α : Type u) where
  enc : α → String
  fp : FileHandle
  count : Nat

/-- Model of `JsonSequenceWriter.__init__`: opens the file in `'wt'` mode
(truncating: the sink starts empty and open) with `_count = 0`.  No
opening bracket is written yet. -/
def JsonSequenceWriter.mkNew (enc : α → String) : JsonSequenceWriter α :=
  ⟨enc, ⟨"", true⟩, 0⟩

/-- Model of `JsonSequenceWriter.write` (lines 67-73): write `,` if
`_count > 0` else `[`, then the element's encoded text, then increment
`_count`.  A failed file write surfaces immediately and aborts the rest of
the method. -/
def JsonSequenceWriter.write (w : JsonSequenceWriter α) (obj : α) :
    JsonSequenceWriter α × Option PyError :=
  let r1 := fpWrite w.fp (if w.count > 0 then "," else "[")
  match r1.2 with
  | some e => ({ w with fp := r1.1 }, some e)
  | none =>
    let r2 := fpWrite r1.1 (w.enc obj)
    match r2.2 with
    | some e => ({ w with fp := r2.1 }, some e)
    | none => ({ w with fp := r2.1, count := w.count + 1 }, none)

/-- Model of `JsonSequenceWriter.close` (lines 75-77): write `]`
unconditionally, then close the file.  The `]` write raises if the file is
already closed, in which case `self._fp.close()` is not reached. -/
def JsonSequenceWriter.close (w : JsonSequenceWriter α) :
    JsonSequenceWriter α × Option PyError :=
  let r := fpWrite w.fp "]"
  match r.2 with
  | some e => ({ w with fp := r.1 }, some e)
  | none => ({ w with fp := fpClose r.1 }, none)

/-- A caller loop pushing each element of a list through
`JsonSequenceWriter.write`, stopping at the first raised error. -/
def JsonSequenceWriter.writeAll :
    JsonSequenceWriter α → List α → JsonSequenceWriter α × Option PyError
  | w, [] => (w, none)
  | w, x :: xs =>
    let r := w.write x
    match r.2 with
    | some e => (r.1, some e)
    | none => r.1.writeAll xs

/-- A complete run of the Managed Push Writer: construct, `write` each
element in order, then `close`. -/
def writerRun (enc : α → String) (xs : List α) :
    JsonSequenceWriter α × Option PyError :=
  let r := (JsonSequenceWriter.mkNew enc).writeAll xs
  match r.2 with
  | some e => (r.1, some e)
  | none => r.1.close

/-- Model of `JsonSequenceWriter.__enter__` (lines 79-80): returns the
writer itself. -/
def JsonSequenceWriter.enter (w : JsonSequenceWriter α) : JsonSequenceWriter α :=
  w

/-- Model of `JsonSequenceWriter.__exit__` (lines 82-85): calls `close`
and returns `False` (exceptions are not suppressed). -/
def JsonSequenceWriter.exitScope (w : JsonSequenceWriter α) :
    (JsonSequenceWriter α × Option PyError) × Bool :=
  (w.close, false)

/-- Python `with`-statement semantics over the writer: bind
`__enter__`'s result, run the body (which may end in a raised error),
call `__exit__` on every exit path; an error raised inside `__exit__`
propagates, otherwise a body error propagates unless `__exit__` returned
`True`. -/
def pyWith (w : JsonSequenceWriter α)
    (body : JsonSequenceWriter α → JsonSequenceWriter α × Option PyError) :
    JsonSequenceWriter α × Option PyError :=
  let rb := body w.enter
  let re := rb.1.exitScope
  match re.1.2 with
  | some e2 => (re.1.1, some e2)
  | none =>
    match rb.2 with
    | some e => (re.1.1, if re.2 then none else some e)
    | none => (re.1.1, none)

/-! ## Theorems -/

theorem sepStep_pull (sep : String) (enc : α → String) :
    ∀ (xs : List α) (s t : String),
      xs.foldl (sepStep sep enc) (s ++ t) = s ++ xs.foldl (sepStep sep enc) t := by
  intro xs
  induction xs with
  | nil => intro s t; rfl
  | cons x xs ih =>
    intro s t
    simp only [List.foldl_cons, sepStep]
    rw [String.append_assoc s t sep, String.append_assoc s (t ++ sep) (enc x)]
    exact ih s ((t ++ sep) ++ enc x)

theorem dump_foldl_true (enc : α → String) :
    ∀ (xs : List α) (s : String),
      xs.foldl (dumpStep enc) (s, true) = (xs.foldl (sepStep "," enc) s, true) := by
  intro xs
  induction xs with
  | nil => intro s; rfl
  | cons x xs ih =>
    intro s
    simp only [List.foldl_cons]
    have h1 : dumpStep enc (s, true) x = (sepStep "," enc s x, true) := rfl
    rw [h1, ih]

theorem sepJoin_foldl (sep : String) (enc : α → String) :
    ∀ (xs : List α) (x : α),
      sepJoin sep ((x :: xs).map enc) = xs.foldl (sepStep sep enc) (enc x) := by
  intro xs
  induction xs with
  | nil => intro x; rfl
  | cons y ys ih =>
    intro x
    show enc x ++ sep ++ sepJoin sep ((y :: ys).map enc)
      = List.foldl (sepStep sep enc) (sepStep sep enc (enc x) y) ys
    rw [ih y]
    show (enc x ++ sep) ++ List.foldl (sepStep sep enc) (enc y) ys
      = List.foldl (sepStep sep enc) ((enc x ++ sep) ++ enc y) ys
    rw [sepStep_pull sep enc ys (enc x ++ sep) (enc y)]

/-- The output shape of `dump_it`: opening bracket, comma-joined encoded
elements, closing bracket. -/
theorem dump_it_eq (enc : α → String) (it : List α) :
    dump_it enc it = "[" ++ sepJoin "," (it.map enc) ++ "]" := by
  cases it with
  | nil =>
    show "[" ++ "]" = "[" ++ "" ++ "]"
    rw [String.append_empty]
  | cons x xs =>
    unfold dump_it
    simp only [List.foldl_cons]
    have h1 : dumpStep enc ("[", false) x = ("[" ++ enc x, true) := rfl
    rw [h1, dump_foldl_true, sepJoin_foldl]
    rw [sepStep_pull "," enc xs "[" (enc x)]

/-- On a source that never fails, the fallible model coincides with
`dump_it`. -/
theorem dump_itSrc_ok (enc : α → String) (it : List α) :
    dump_itSrc (ε := ε) enc (it.map Except.ok) = (dump_it enc it, none) := by
  have h : ∀ (xs : List α) (st : String × Bool),
      dumpLoopSrc (ε := ε) enc st (xs.map Except.ok)
        = (xs.foldl (dumpStep enc) st, none) := by
    intro xs
    induction xs with
    | nil => intro st; rfl
    | cons x xs ih =>
      intro st
      show dumpLoopSrc enc (dumpStep enc st x) (xs.map Except.ok) = _
      rw [ih]
      rfl
  unfold dump_itSrc dump_it
  rw [h]

theorem iterAux_spec :
    ∀ (xs : List α) (n : Nat),
      (iterAux xs n).1 = xs.zip (List.range' n xs.length) ∧
      (iterAux xs n).2 = n + xs.length := by
  intro xs
  induction xs with
  | nil => intro n; exact ⟨rfl, rfl⟩
  | cons x xs ih =>
    intro n
    constructor
    · show (x, n) :: (iterAux xs (n + 1)).1 = (x :: xs).zip (List.range' n (xs.length + 1))
      rw [List.range'_succ]
      show (x, n) :: (iterAux xs (n + 1)).1 = (x, n) :: xs.zip (List.range' (n + 1) xs.length)
      rw [(ih (n + 1)).1]
    · show (iterAux xs (n + 1)).2 = n + (xs.length + 1)
      rw [(ih (n + 1)).2]
      omega

theorem digitVal_digitChar {d : Nat} (h : d < 10) : digitVal (digitChar d) = d := by
  interval_cases d <;> rfl

theorem isDigit_digitChar {d : Nat} (h : d < 10) : (digitChar d).isDigit = true := by
  interval_cases d <;> rfl

theorem natDigitsCore_acc :
    ∀ (fuel n : Nat) (acc : List Char),
      natDigitsCore fuel n acc = natDigitsCore fuel n [] ++ acc := by
  intro fuel
  induction fuel with
  | zero => intro n acc; rfl
  | succ fuel ih =>
    intro n acc
    by_cases h : n < 10
    · simp [natDigitsCore, h]
    · simp only [natDigitsCore, if_neg h]
      rw [ih (n / 10) (digitChar (n % 10) :: acc), ih (n / 10) [digitChar (n % 10)]]
      simp [List.append_assoc]

theorem natDigitsCore_fuel :
    ∀ (m f1 f2 : Nat), m < f1 → m < f2 →
      natDigitsCore f1 m [] = natDigitsCore f2 m [] := by
  intro m
  induction m using Nat.strong_induction_on with
  | _ m ih =>
    intro f1 f2 h1 h2
    cases f1 with
    | zero => omega
    | succ g1 =>
      cases f2 with
      | zero => omega
      | succ g2 =>
        by_cases h : m < 10
        · simp [natDigitsCore, h]
        · simp only [natDigitsCore, if_neg h]
          rw [natDigitsCore_acc g1, natDigitsCore_acc g2]
          have hm : m / 10 < m := Nat.div_lt_self (by omega) (by omega)
          rw [ih (m / 10) hm g1 g2 (by omega) (by omega)]

theorem digitsVal_append_singleton (l : List Char) (c : Char) :
    digitsVal (l ++ [c]) = 10 * digitsVal l + digitVal c := by
  unfold digitsVal
  rw [List.foldl_append]
  rfl

theorem digitsVal_natToDigits : ∀ n : Nat, digitsVal (natToDigits n) = n := by
  intro n
  induction n using Nat.strong_induction_on with
  | _ n ih =>
    by_cases h : n < 10
    · show digitsVal (natDigitsCore (n + 1) n []) = n
      rw [show natDigitsCore (n + 1) n [] = [digitChar n] from by simp [natDigitsCore, h]]
      show 10 * 0 + digitVal (digitChar n) = n
      rw [digitVal_digitChar h]
      omega
    · show digitsVal (natDigitsCore (n + 1) n []) = n
      have hstep : natDigitsCore (n + 1) n []
          = natDigitsCore n (n / 10) [digitChar (n % 10)] := by
        simp [natDigitsCore, h]
      have hm : n / 10 < n := Nat.div_lt_self (by omega) (by omega)
      rw [hstep, natDigitsCore_acc n (n / 10)]
      rw [natDigitsCore_fuel (n / 10) n (n / 10 + 1) hm (by omega)]
      rw [digitsVal_append_singleton]
      have hih := ih (n / 10) hm
      unfold natToDigits at hih
      rw [hih, digitVal_digitChar (Nat.mod_lt n (by omega))]
      omega

theorem natDigitsCore_ne_nil :
    ∀ (fuel n : Nat) (acc : List Char), 0 < fuel ∨ acc ≠ [] →
      natDigitsCore fuel n acc ≠ [] := by
  intro fuel
  induction fuel with
  | zero =>
    intro n acc h
    rcases h with h | h
    · omega
    · simpa [natDigitsCore] using h
  | succ fuel ih =>
    intro n acc h
    by_cases h10 : n < 10
    · simp [natDigitsCore, h10]
    · simp only [natDigitsCore, if_neg h10]
      exact ih (n / 10) _ (Or.inr (by simp))

theorem natToDigits_ne_nil (n : Nat) : natToDigits n ≠ [] :=
  natDigitsCore_ne_nil (n + 1) n [] (Or.inl (by omega))

theorem natDigitsCore_isDigit :
    ∀ (fuel n : Nat) (acc : List Char), (∀ c ∈ acc, c.isDigit = true) →
      ∀ c ∈ natDigitsCore fuel n acc, c.isDigit = true := by
  intro fuel
  induction fuel with
  | zero => intro n acc h; exact h
  | succ fuel ih =>
    intro n acc h c hc
    by_cases h10 : n < 10
    · rw [show natDigitsCore (fuel + 1) n acc = digitChar n :: acc from by
        simp [natDigitsCore, h10]] at hc
      rcases List.mem_cons.mp hc with h1 | h1
      · rw [h1]; exact isDigit_digitChar h10
      · exact h c h1
    · rw [show natDigitsCore (fuel + 1) n acc
          = natDigitsCore fuel (n / 10) (digitChar (n % 10) :: acc) from by
        simp [natDigitsCore, h10]] at hc
      refine ih (n / 10) (digitChar (n % 10) :: acc) ?_ c hc
      intro d hd
      rcases List.mem_cons.mp hd with h1 | h1
      · rw [h1]; exact isDigit_digitChar (Nat.mod_lt n (by omega))
      · exact h d h1

theorem natToDigits_isDigit (n : Nat) : ∀ c ∈ natToDigits n, c.isDigit = true :=
  natDigitsCore_isDigit (n + 1) n [] (by intro c hc; cases hc)

theorem digitsToNat_natToDigits (n : Nat) : digitsToNat (natToDigits n) = some n := by
  unfold digitsToNat
  rw [if_pos ⟨natToDigits_ne_nil n, by
    rw [List.all_eq_true]; intro c hc; exact natToDigits_isDigit n c hc⟩]
  rw [digitsVal_natToDigits]

theorem isDigit_ne_comma {c : Char} (h : c.isDigit = true) : c ≠ ',' := by
  intro h1
  rw [h1] at h
  simp [Char.isDigit] at h

theorem splitOnComma_ne_nil : ∀ cs : List Char, splitOnComma cs ≠ [] := by
  intro cs
  induction cs with
  | nil => simp [splitOnComma]
  | cons c cs ih =>
    by_cases h : c = ','
    · simp [splitOnComma, h]
    · simp only [splitOnComma, if_neg h]
      split <;> simp

theorem splitOnComma_comma_cons (cs : List Char) :
    splitOnComma (',' :: cs) = [] :: splitOnComma cs := by
  simp [splitOnComma]

theorem splitOnComma_append_free :
    ∀ (g : List Char), (∀ c ∈ g, c ≠ ',') →
    ∀ (rest r : List Char) (rs : List (List Char)),
      splitOnComma rest = r :: rs →
      splitOnComma (g ++ rest) = (g ++ r) :: rs := by
  intro g
  induction g with
  | nil => intro _ rest r rs h; simpa using h
  | cons c g ih =>
    intro hfree rest r rs h
    have hc : c ≠ ',' := hfree c (List.mem_cons_self c g)
    have ih' := ih (fun d hd => hfree d (List.mem_cons_of_mem c hd)) rest r rs h
    show splitOnComma (c :: (g ++ rest)) = ((c :: g) ++ r) :: rs
    simp only [splitOnComma, if_neg hc]
    rw [ih']
    rfl

theorem splitOnComma_joinComma :
    ∀ (gs : List (List Char)) (g : List Char),
      (∀ chunk ∈ g :: gs, ∀ c ∈ chunk, c ≠ ',') →
      splitOnComma (joinComma (g :: gs)) = g :: gs := by
  intro gs
  induction gs with
  | nil =>
    intro g hfree
    have h1 := splitOnComma_append_free g
      (hfree g (List.mem_cons_self g [])) [] [] [] rfl
    simpa [joinComma] using h1
  | cons g' gs' ih =>
    intro g hfree
    show splitOnComma (g ++ ',' :: joinComma (g' :: gs')) = g :: g' :: gs'
    have hrest : splitOnComma (',' :: joinComma (g' :: gs')) = [] :: (g' :: gs') := by
      rw [splitOnComma_comma_cons]
      rw [ih g' (fun ch hch => hfree ch (List.mem_cons_of_mem g hch))]
    have h1 := splitOnComma_append_free g
      (hfree g (List.mem_cons_self g _)) _ _ _ hrest
    simpa using h1

theorem joinComma_cons_ne_nil (g : List Char) (gs : List (List Char)) (h : g ≠ []) :
    joinComma (g :: gs) ≠ [] := by
  cases gs with
  | nil => simpa [joinComma] using h
  | cons g' gs' => simp [joinComma]

theorem mapM_digitsToNat_natToDigits :
    ∀ S : List Nat, (S.map natToDigits).mapM digitsToNat = some S := by
  intro S
  induction S with
  | nil => rfl
  | cons x xs ih =>
    rw [List.map_cons, List.mapM_cons, digitsToNat_natToDigits, ih]
    rfl

theorem sepJoin_encNat_data :
    ∀ S : List Nat, (sepJoin "," (S.map encNat)).data = joinComma (S.map natToDigits)
  | [] => rfl
  | [x] => rfl
  | x :: y :: ys => by
    show (encNat x ++ "," ++ sepJoin "," ((y :: ys).map encNat)).data
      = natToDigits x ++ ',' :: joinComma ((y :: ys).map natToDigits)
    rw [String.data_append, String.data_append]
    rw [sepJoin_encNat_data (y :: ys)]
    show (natToDigits x ++ [',']) ++ joinComma ((y :: ys).map natToDigits) = _
    rw [List.append_assoc]
    rfl

theorem parseJsonNatArray_bracket (mid : List Char) :
    parseJsonNatArray ('[' :: (mid ++ [']'])) =
      if mid = [] then some [] else (splitOnComma mid).mapM digitsToNat := by
  simp only [parseJsonNatArray, List.getLast?_concat, List.dropLast_concat]

theorem parse_dump_roundtrip (S : List Nat) :
    parseJsonNatArray (dump_it encNat S).data = some S := by
  rw [dump_it_eq]
  have hsplit : ("[" ++ sepJoin "," (S.map encNat) ++ "]").data
      = '[' :: (joinComma (S.map natToDigits) ++ [']']) := by
    rw [String.data_append, String.data_append, sepJoin_encNat_data]
    rfl
  rw [hsplit, parseJsonNatArray_bracket]
  cases S with
  | nil => rfl
  | cons x xs =>
    simp only [List.map_cons]
    rw [if_neg (joinComma_cons_ne_nil _ _ (natToDigits_ne_nil x))]
    rw [splitOnComma_joinComma (xs.map natToDigits) (natToDigits x) ?_]
    · have h2 := mapM_digitsToNat_natToDigits (x :: xs)
      simpa using h2
    · intro chunk hchunk c hc
      rcases List.mem_cons.mp hchunk with h1 | h1
      · subst h1; exact isDigit_ne_comma (natToDigits_isDigit x c hc)
      · rcases List.mem_map.mp h1 with ⟨m, _, hm⟩
        subst hm
        exact isDigit_ne_comma (natToDigits_isDigit m c hc)

theorem write_open_pos (enc : α → String) (s : String) (c : Nat) (x : α) :
    JsonSequenceWriter.write ⟨enc, ⟨s, true⟩, c + 1⟩ x
      = (⟨enc, ⟨sepStep "," enc s x, true⟩, c + 1 + 1⟩, none) := by
  simp [JsonSequenceWriter.write, fpWrite, sepStep]

theorem write_open_zero (enc : α → String) (s : String) (x : α) :
    JsonSequenceWriter.write ⟨enc, ⟨s, true⟩, 0⟩ x
      = (⟨enc, ⟨(s ++ "[") ++ enc x, true⟩, 1⟩, none) := by
  simp [JsonSequenceWriter.write, fpWrite]

theorem writeAll_open_pos (enc : α → String) :
    ∀ (xs : List α) (s : String) (c : Nat),
      JsonSequenceWriter.writeAll ⟨enc, ⟨s, true⟩, c + 1⟩ xs
        = (⟨enc, ⟨xs.foldl (sepStep "," enc) s, true⟩, c + 1 + xs.length⟩, none) := by
  intro xs
  induction xs with
  | nil => intro s c; rfl
  | cons x xs ih =>
    intro s c
    unfold JsonSequenceWriter.writeAll
    rw [write_open_pos]
    show JsonSequenceWriter.writeAll ⟨enc, ⟨sepStep "," enc s x, true⟩, (c + 1) + 1⟩ xs = _
    rw [ih (sepStep "," enc s x) (c + 1)]
    have hn : c + 1 + 1 + xs.length = c + 1 + (x :: xs).length := by
      simp [List.length_cons]
      omega
    rw [hn]
    rfl

theorem close_open (enc : α → String) (s : String) (c : Nat) :
    JsonSequenceWriter.close ⟨enc, ⟨s, true⟩, c⟩ = (⟨enc, ⟨s ++ "]", false⟩, c⟩, none) := by
  simp [JsonSequenceWriter.close, fpWrite, fpClose]

theorem writerRun_nil (enc : α → String) :
    writerRun enc ([] : List α) = (⟨enc, ⟨"]", false⟩, 0⟩, none) := by
  show JsonSequenceWriter.close ⟨enc, ⟨"", true⟩, 0⟩ = _
  rw [close_open]
  rfl

theorem writerRun_cons (enc : α → String) (x : α) (xs : List α) :
    writerRun enc (x :: xs)
      = (⟨enc, ⟨"[" ++ sepJoin "," ((x :: xs).map enc) ++ "]", false⟩, 1 + xs.length⟩, none) := by
  have h1 : (JsonSequenceWriter.mkNew enc).writeAll (x :: xs)
      = (⟨enc, ⟨xs.foldl (sepStep "," enc) ("[" ++ enc x), true⟩, 1 + xs.length⟩, none) := by
    show JsonSequenceWriter.writeAll ⟨enc, ⟨"", true⟩, 0⟩ (x :: xs) = _
    unfold JsonSequenceWriter.writeAll
    rw [write_open_zero]
    show JsonSequenceWriter.writeAll ⟨enc, ⟨"[" ++ enc x, true⟩, 0 + 1⟩ xs = _
    rw [writeAll_open_pos enc xs ("[" ++ enc x) 0]
  show (match ((JsonSequenceWriter.mkNew enc).writeAll (x :: xs)).2 with
    | some e => (((JsonSequenceWriter.mkNew enc).writeAll (x :: xs)).1, some e)
    | none => ((JsonSequenceWriter.mkNew enc).writeAll (x :: xs)).1.close) = _
  rw [h1]
  show JsonSequenceWriter.close
      ⟨enc, ⟨xs.foldl (sepStep "," enc) ("[" ++ enc x), true⟩, 1 + xs.length⟩ = _
  rw [close_open]
  rw [sepStep_pull "," enc xs "[" (enc x), ← sepJoin_foldl]

theorem write_closed (w : JsonSequenceWriter α) (h : w.fp.isOpen = false) (obj : α) :
    w.write obj = (w, some PyError.valueErrorClosedFile) := by
  unfold JsonSequenceWriter.write fpWrite
  rw [h]
  rfl

theorem close_closed (w : JsonSequenceWriter α) (h : w.fp.isOpen = false) :
    w.close = (w, some PyError.valueErrorClosedFile) := by
  unfold JsonSequenceWriter.close fpWrite
  rw [h]
  rfl

theorem close_snd_none (w : JsonSequenceWriter α) (h : w.fp.isOpen = true) :
    (w.close).2 = none := by
  unfold JsonSequenceWriter.close fpWrite
  rw [h]
  rfl

theorem pyWith_eq (w : JsonSequenceWriter α)
    (body : JsonSequenceWriter α → JsonSequenceWriter α × Option PyError)
    (h : ((body w).1.close).2 = none) :
    pyWith w body = (((body w).1.close).1, (body w).2) := by
  simp only [pyWith, JsonSequenceWriter.enter, JsonSequenceWriter.exitScope]
  rw [h]
  cases h2 : (body w).2 <;> rfl

/-! ## Claim theorems -/

/-- C1: for every finite sequence and every encoder configuration,
`dump_it` writes to the sink exactly the opening bracket `[`, the encoded
elements joined by a single `,` with no whitespace added by the writer,
then the closing bracket `]` (hence N−1 separators for N elements); the
empty sequence produces exactly `[]`. -/
theorem C1_dump_it_output (enc : α → String) (it : List α) :
    dump_it enc it = "[" ++ sepJoin "," (it.map enc) ++ "]" ∧
    dump_it enc ([] : List α) = "[]" :=
  ⟨dump_it_eq enc it, by rw [dump_it_eq]; rfl⟩

/-- C2 (code bug, evaluated at the failing input): a `JsonSequenceWriter`
run of zero `write()` calls followed by `close()` leaves the file
containing only `]` — the opening bracket is never written, so the claimed
output `[]` is not produced — while for every run with at least one
`write()` the claimed `[` + joined elements + `]` shape does hold. -/
theorem C2_zero_write_close_bug :
    (writerRun encNat ([] : List Nat)).1.fp.contents = "]" ∧
    ("]" : String) ≠ "[]" ∧
    (∀ (x : Nat) (xs : List Nat),
      (writerRun encNat (x :: xs)).1.fp.contents
        = "[" ++ sepJoin "," ((x :: xs).map encNat) ++ "]") := by
  refine ⟨?_, by decide, ?_⟩
  · rw [writerRun_nil]
  · intro x xs
    rw [writerRun_cons]

/-- C3 counterexample: `dump_it_by_hack` is not byte-identical to
`dump_it`.  On the empty source the hack emits `]` where `dump_it` emits
`[]` (the encoder's `[` buffer is never yielded because the loop body
never runs), and under the default encoder configuration the hack's
top-level item separator is `", "`, not the `,` that `dump_it` writes. -/
theorem C3_hack_counterexample :
    dump_it_by_hack ", " encNat ([] : List Nat) = "]" ∧
    dump_it encNat ([] : List Nat) = "[]" ∧
    ("]" : String) ≠ "[]" ∧
    dump_it_by_hack ", " encNat [1, 2] = "[1, 2]" ∧
    dump_it encNat [1, 2] = "[1,2]" ∧
    ("[1, 2]" : String) ≠ "[1,2]" :=
  ⟨rfl, rfl, by decide, by decide, by decide, by decide⟩

/-- C3 amended: for every nonempty source and every encoder configuration
whose top-level item separator is exactly `,` (not the default `", "`),
`dump_it_by_hack` writes output byte-identical to `dump_it`; on the empty
source the hack omits the opening bracket (`]` instead of `[]`). -/
theorem C3_hack_amended (enc : α → String) (x : α) (xs : List α) :
    dump_it_by_hack "," enc (x :: xs) = dump_it enc (x :: xs) := by
  show (xs.foldl (sepStep "," enc) ("[" ++ enc x)) ++ "]" = _
  rw [dump_it_eq, sepJoin_foldl]
  rw [sepStep_pull "," enc xs "[" (enc x)]

/-- C4 counterexample: after `close()`, a `write()` call fails with the
`ValueError` the closed underlying file raises — not with a writer-raised
"writer closed" LifecycleError — and the sink still receives no element
text (the contents stay `[1]`). -/
theorem C4_write_after_close_counterexample :
    ((writerRun encNat [1]).1.write 2).2 = some PyError.valueErrorClosedFile ∧
    some PyError.valueErrorClosedFile ≠ some PyError.lifecycleError ∧
    ((writerRun encNat [1]).1.write 2).1.fp.contents = "[1]" :=
  ⟨by decide, by decide, by decide⟩

/-- C4 amended: after `close()` every subsequent `write(element)` fails —
with the closed-file `ValueError` raised by the underlying file object
rather than a dedicated writer-raised LifecycleError — and no element text
is written: the writer, its sink contents included, is left unchanged. -/
theorem C4_write_after_close_amended (w : JsonSequenceWriter α)
    (h : w.fp.isOpen = false) (obj : α) :
    w.write obj = (w, some PyError.valueErrorClosedFile) :=
  write_closed w h obj

/-- Witness for the amended C4 theorem at a concrete closed writer. -/
theorem C4_write_after_close_witness :
    (writerRun encNat [1]).1.fp.isOpen = false ∧
    (writerRun encNat [1]).1.write 2
      = ((writerRun encNat [1]).1, some PyError.valueErrorClosedFile) :=
  ⟨by decide, C4_write_after_close_amended (writerRun encNat [1]).1 (by decide) 2⟩

/-- C5 (code bug, both halves): parsing `dump_it`'s output under the
default element encoding recovers every finite sequence of naturals —
empty, singleton and longer sequences included — but for the cited
Managed Push Writer the empty sequence violates the round trip: its
complete output is `]`, which does not parse as JSON at all. -/
theorem C5_roundtrip_and_push_empty_bug :
    (∀ S : List Nat, parseJsonNatArray (dump_it encNat S).data = some S) ∧
    parseJsonNatArray ((writerRun encNat ([] : List Nat)).1.fp.contents).data = none :=
  ⟨parse_dump_roundtrip, by decide⟩

/-- C6: if the source yields one value and then raises, `dump_it` stops
immediately: the source's exception (the spec's SourceError) surfaces to
the caller unchanged, and the sink holds exactly `[` followed by the first
element's encoded text — no closing bracket, no rollback, and nothing of
any later step of the source. -/
theorem C6_source_failure (enc : α → String) (a : α) (e : ε)
    (rest : List (Except ε α)) :
    dump_itSrc enc (Except.ok a :: Except.error e :: rest) = ("[" ++ enc a, some e) :=
  rfl

/-- C7: scoped acquisition: `__enter__` returns the writer itself, and for
every body (raising or not) whose final writer state still has the sink
open, leaving the scope runs `close()` and hands back exactly the body's
own outcome — an in-scope error is never suppressed, and a normal
completion stays normal. -/
theorem C7_scoped_acquisition (w : JsonSequenceWriter α)
    (body : JsonSequenceWriter α → JsonSequenceWriter α × Option PyError)
    (h : (body w).1.fp.isOpen = true) :
    JsonSequenceWriter.enter w = w ∧
    pyWith w body = (((body w).1.close).1, (body w).2) :=
  ⟨rfl, pyWith_eq w body (close_snd_none (body w).1 h)⟩

/-- Witness for C7 at a concrete writer and body. -/
theorem C7_scoped_acquisition_witness :
    ((fun v => JsonSequenceWriter.write v 7) (JsonSequenceWriter.mkNew encNat)).1.fp.isOpen
      = true ∧
    (JsonSequenceWriter.enter (JsonSequenceWriter.mkNew encNat)
        = JsonSequenceWriter.mkNew encNat ∧
      pyWith (JsonSequenceWriter.mkNew encNat) (fun v => JsonSequenceWriter.write v 7)
        = ((((fun v => JsonSequenceWriter.write v 7)
              (JsonSequenceWriter.mkNew encNat)).1.close).1,
           ((fun v => JsonSequenceWriter.write v 7)
              (JsonSequenceWriter.mkNew encNat)).2)) :=
  ⟨by decide,
   C7_scoped_acquisition (JsonSequenceWriter.mkNew encNat)
     (fun v => JsonSequenceWriter.write v 7) (by decide)⟩

/-- C8 counterexample: iterating `StreamArray` over the one-element source
`[5]`, at the moment the first (and only) element has been produced
(yielded), `__len__` reports 0 — not the true produced count 1 — because
`self._len += 1` runs only when the consumer resumes the generator. -/
theorem C8_len_lag_counterexample :
    (StreamArray.init ([5] : List Nat)).iterRun.1 = [(5, 0)] ∧ (0 : Nat) ≠ 1 :=
  ⟨rfl, by decide⟩

/-- C8 amended: `__len__` reports the sentinel 1 before iteration begins;
a full iteration yields exactly the source's elements, in order, exactly
once (consuming the single-pass generator), and at the yield point of the
element of index `i` the reported length is `i` — one less than the count
of elements produced so far; only after exhaustion does `__len__` equal
the total element count. -/
theorem C8_len_tracking (gen : List α) :
    (StreamArray.init gen).curLen = 1 ∧
    (StreamArray.init gen).iterRun.1 = gen.zip (List.range' 0 gen.length) ∧
    (StreamArray.init gen).iterRun.2.curLen = gen.length ∧
    (StreamArray.init gen).iterRun.2.generator = [] := by
  refine ⟨rfl, (iterAux_spec gen 0).1, ?_, rfl⟩
  show (iterAux gen 0).2 = gen.length
  rw [(iterAux_spec gen 0).2]
  omega

/-- C10: a second `close()` on an already-closed writer attempts the `]`
write on the released sink, fails with the closed-file `ValueError`, and
leaves the writer — the file's contents included — unchanged. -/
theorem C10_double_close (w : JsonSequenceWriter α) (h : w.fp.isOpen = false) :
    w.close = (w, some PyError.valueErrorClosedFile) :=
  close_closed w h

/-- Witness for C10 at a concrete writer that has just been closed. -/
theorem C10_double_close_witness :
    (writerRun encNat [2]).1.fp.isOpen = false ∧
    (writerRun encNat [2]).1.close
      = ((writerRun encNat [2]).1, some PyError.valueErrorClosedFile) :=
  ⟨by decide, C10_double_close (writerRun encNat [2]).1 (by decide)⟩

end CtrlZ
